import Mathlib

/-!
Shallow embedding of `getmanga/getmanga.py` (mayanez/getmanga).

The embedding models, faithfully to the Python source:

* `Page`, `Chapter` — the namedtuples (line 31-32);
* `afterLastDot` / `extOf` — Python `uri.split('.')[-1]` (line 114);
* `workerResult` — the body of `GetManga._get_image` (lines 109-121): the
  item a worker thread puts on the shared queue, either
  `(name, image)` on success or `(None, msg)` when `get_image_uri`/`uriopen`
  raises `MangaException`;
* `progressModel` — `progress` (lines 411-425): the only way the rendering
  code can raise is the `page / total` division with `total = 0`
  (`ZeroDivisionError` caught and re-raised as `MangaException('Unknown error')`);
* `collect` — the join/get loop of `GetManga.get` (lines 92-100): items are
  taken from the shared FIFO queue, hence in the order worker threads put
  them (completion order), one per joined thread;
* `getModel` — `GetManga.get` (lines 56-107), parameterised by the initial
  filesystem state, the page list returned by `get_pages`, the fetch
  environment (the site adapter's `get_image_uri` and `uriopen`, which are
  network calls), and the order in which the worker threads complete
  (the order of `queue.put` calls, which is the order `queue.get` returns
  items in);
* `uriopenModel` — `uriopen` (lines 406-408): `requests.get(url).content`,
  over an abstract HTTP transport;
* `latest` — the `GetManga.latest` property (lines 52-54): Python
  `chapters[-1]`, which raises `IndexError` on an empty list.

A second, finer-grained model (`TState`/`Step`) embeds the thread system of
lines 83-107 as a small-step relation, for the temporal claims about the
semaphore cap and about behaviour after the first observed failure.
-/

/-- `Page = namedtuple('Page', 'name uri')` (line 32). -/
structure Page where
  name : String
  uri : String
deriving DecidableEq, Repr, Inhabited

/-- `Chapter = namedtuple('Chapter', 'number name uri')` (line 31). -/
structure Chapter where
  number : String
  name : String
  uri : String
deriving DecidableEq, Repr, Inhabited

/-- Image bytes are opaque; model as a list of byte values. -/
abbrev Bytes := List Nat

/-- An archive member: `(name, content)` as written by `cbz.writestr(name, image)`. -/
abbrev Entry := String × Bytes

/-- The characters after the last `'.'` of the list (the whole list when it has
no `'.'`): Python `s.split('.')[-1]` at the character level (line 114). -/
def afterLastDot (l : List Char) : List Char :=
  l.foldl (fun acc c => if c = '.' then [] else acc ++ [c]) []

/-- Python `uri.split('.')[-1]` (line 114). -/
def extOf (uri : String) : String :=
  ⟨afterLastDot uri.data⟩

/-- `name = page.name + os.path.extsep + uri.split('.')[-1]` (line 114);
`os.path.extsep` is `"."`. -/
def entryName (page : Page) (uri : String) : String :=
  page.name ++ "." ++ extOf uri

/-- The fetch environment: the external calls made inside `_get_image`.
`getImageUri` is `self.manga.get_image_uri(page.uri)` (line 113), which may
raise `MangaException` (modelled as `Except.error`); `uriopenImg` is
`uriopen(uri)` on the resolved image uri (line 115). -/
structure FetchEnv where
  getImageUri : String → Except String String
  uriopenImg : String → Bytes

/-- The item `_get_image` puts on the shared queue (lines 109-121):
`(name, image)` on success, `(None, msg)` when a `MangaException` was
raised while resolving the image uri or fetching it. -/
def workerResult (env : FetchEnv) (page : Page) : Except String Entry :=
  match env.getImageUri page.uri with
  | .error msg => .error msg
  | .ok uri => .ok (entryName page uri, env.uriopenImg uri)

/-- `progress(page, total)` (lines 411-425): `page` and `total` arrive as
ints; the guarded block fails exactly when `page / total` divides by zero,
i.e. when `total = 0`, and then `MangaException('Unknown error')` is raised.
The rendering itself is output-only and is not modelled further. -/
def progressModel (page total : Nat) : Except String Unit :=
  if total = 0 then .error "Unknown error" else .ok ()

/-- The filesystem state `GetManga.get` manipulates: whether the temporary
file `<final>.tmp` exists, and the content of the archive at the final
path `<path>/<chapter.name>.cbz` (`none` when no file exists there). -/
structure FS where
  tmp : Bool
  final : Option (List Entry)
deriving DecidableEq, Repr

/-- The outcome of `GetManga.get`: an early return because the final file
already exists (lines 67-69), a normal return after committing the archive
(lines 105-107), or a raised `MangaException` (lines 76, 100-104, and the
un-guarded `progress(0, len(pages))` call at line 81). -/
inductive GetResult where
  | skipped
  | success (entries : List Entry)
  | failure (msg : String)
deriving DecidableEq, Repr

/-- The join/get loop of `GetManga.get` (lines 92-100): each iteration takes
the next item from the FIFO queue (so items are consumed in the order the
workers put them), writes it to the archive when the name is not `None`
and reports progress, and raises on the first `None` item. `total` is
`len(pages)`. Returns the final archive content, or the first error. -/
def collect (total : Nat) : List (Except String Entry) → List Entry → Except String (List Entry)
  | [], acc => .ok acc
  | .error msg :: _, _ => .error msg
  | .ok e :: rest, acc =>
    match progressModel (acc ++ [e]).length total with
    | .error msg => .error msg
    | .ok _ => collect total rest (acc ++ [e])

/-- `GetManga.get(chapter)` (lines 56-107). Parameters:
`fs0` the filesystem before the call; `pages` the list returned by
`self.manga.get_pages(chapter.uri)`; `env` the fetch environment;
`order` the order in which the worker threads complete, i.e. the sequence
of page indices in the order their results are put on the queue
(the thread system can realise any permutation of the indices).

Directory creation (lines 57-62) and `ZipFile` creation (lines 73-76) are
assumed to succeed; their failure paths raise before any page work and are
not the subject of any claim. When the final file already exists the call
returns at line 69 before the temporary file is created. Otherwise the
temporary file is created (line 74), `progress(0, len(pages))` runs
un-guarded (line 81), the workers are spawned, and the join/get loop runs
inside `try`: on any exception the temporary file is removed and
`MangaException` raised (lines 101-104), otherwise the archive is closed
and renamed onto the final path (lines 105-107). -/
def getModel (fs0 : FS) (pages : List Page) (env : FetchEnv) (order : List Nat) :
    GetResult × FS :=
  if fs0.final.isSome then
    (.skipped, fs0)
  else
    match progressModel 0 pages.length with
    | .error msg => (.failure msg, { tmp := true, final := none })
    | .ok _ =>
      let results := order.map (fun i => workerResult env (pages.getD i default))
      match collect pages.length results [] with
      | .error msg => (.failure msg, { tmp := false, final := none })
      | .ok entries => (.success entries, { tmp := false, final := some entries })

/-- `uriopen` works over an abstract HTTP transport: `requests.get` either
completes with a response (any status code, with a body) or raises a
transport error. -/
structure HttpResponse where
  statusCode : Nat
  content : Bytes
deriving DecidableEq, Repr

/-- `uriopen(url)` (lines 406-408): `return requests.get(url).content`.
The body bytes of whatever response the transport produced are returned;
the status code is never inspected, and a transport error propagates. -/
def uriopenModel (get : String → Except String HttpResponse) (url : String) :
    Except String Bytes :=
  match get url with
  | .error e => .error e
  | .ok resp => .ok resp.content

/-! ### Small-step model of the thread system (lines 83-121)

`GetManga.get` spawns one daemon thread per page up-front (lines 86-90);
each thread runs `_get_image`: it acquires the shared semaphore (initial
value `self.concurrency`, line 84), performs the fetch, puts its result on
the shared queue and releases the semaphore (lines 109-121). The main
thread then, for each thread in spawn order, joins it and takes one item
from the queue, writing it to the archive or raising on the first `None`
item (lines 92-107). The model below is a step relation over this state;
the per-worker results (what each worker would put on the queue) are a
fixed parameter, since they do not depend on scheduling. -/

/-- The phase of one worker thread: spawned but not yet holding the
semaphore; holding the semaphore and fetching; or finished (result put,
semaphore released). -/
inductive WPhase where
  | waiting
  | fetching
  | done
deriving DecidableEq, Repr

/-- The shared state of the thread system: one phase per worker, the
semaphore counter, the queue contents in put order, how many items the
main thread has taken (`collected`; the next `queue.get()` returns
`queue[collected]`), the archive members written so far, whether the main
thread has raised out of the collection loop, and whether the archive was
committed (renamed onto the final path). -/
structure TState where
  phases : List WPhase
  sem : Nat
  queue : List (Except String Entry)
  collected : Nat
  entries : List Entry
  failed : Bool
  renamed : Bool
deriving Repr

/-- Number of workers currently inside the semaphore-guarded fetch section. -/
def countFetching (s : TState) : Nat :=
  s.phases.countP (· = WPhase.fetching)

/-- The state right after the spawn loop (lines 83-90): `n` workers all
spawned and waiting, semaphore at the concurrency limit `co`, empty queue,
nothing collected. -/
def initTState (n co : Nat) : TState :=
  { phases := List.replicate n .waiting
    sem := co
    queue := []
    collected := 0
    entries := []
    failed := false
    renamed := false }

/-- One step of the thread system, with `results i` the queue item worker
`i` produces (`workerResult` of page `i`). Workers step regardless of the
main thread's state: a spawned thread acquires the semaphore whenever the
counter is positive (line 112) and, once fetching, finishes by putting its
result and releasing (lines 115-121). The main thread's steps mirror the
`try` block (lines 92-107): it joins thread `collected` (so that thread
must be done), takes the front unread queue item, and either writes it to
the archive, or raises on a `None` item (sets `failed`; the handler closes
and removes the temporary file); after all `n` items are written it
commits (close and rename, lines 105-107). -/
inductive Step (results : List (Except String Entry)) : TState → TState → Prop
  | acquire (s : TState) (i : Nat)
      (hw : s.phases.getD i .done = .waiting)
      (hs : 0 < s.sem) :
      Step results s
        { s with phases := s.phases.set i .fetching, sem := s.sem - 1 }
  | finish (s : TState) (i : Nat)
      (hf : s.phases.getD i .done = .fetching) :
      Step results s
        { s with phases := s.phases.set i .done
                 sem := s.sem + 1
                 queue := s.queue ++ [results.getD i (.error "")] }
  | collectOk (s : TState) (e : Entry)
      (hfail : s.failed = false)
      (hjoin : s.phases.getD s.collected .waiting = .done)
      (hlen : s.collected < s.queue.length)
      (hitem : s.queue.getD s.collected (.error "") = .ok e) :
      Step results s
        { s with collected := s.collected + 1, entries := s.entries ++ [e] }
  | collectErr (s : TState) (msg : String)
      (hfail : s.failed = false)
      (hjoin : s.phases.getD s.collected .waiting = .done)
      (hlen : s.collected < s.queue.length)
      (hitem : s.queue.getD s.collected (.error "") = .error msg) :
      Step results s { s with failed := true }
  | commit (s : TState)
      (hfail : s.failed = false)
      (hren : s.renamed = false)
      (hall : s.collected = results.length) :
      Step results s { s with renamed := true }

/-- Reachability in the thread system from the post-spawn state. -/
def Reaches (results : List (Except String Entry)) : TState → TState → Prop :=
  Relation.ReflTransGen (Step results)

/-- The `GetManga.latest` property (lines 52-54):
`return self.manga.chapters[-1]`. Python `xs[-1]` yields the last element
of a non-empty list and raises `IndexError` on an empty one. -/
def latest (chapters : List Chapter) : Except String Chapter :=
  match chapters.getLast? with
  | some c => .ok c
  | none => .error "IndexError"

/-! ### Helper lemmas -/

/-- The collection loop returns an error as soon as any queue item is a
`(None, msg)` failure item. -/
theorem collect_error_of_exists (total : Nat) (l : List (Except String Entry))
    (acc : List Entry) (h : ∃ r ∈ l, r.isOk = false) :
    ∃ msg, collect total l acc = .error msg := by
  induction l generalizing acc with
  | nil => simp at h
  | cons r rest ih =>
    match r with
    | .error msg => exact ⟨msg, rfl⟩
    | .ok e =>
      obtain ⟨r', hr', hok⟩ := h
      rcases List.mem_cons.mp hr' with rfl | hmem
      · rw [show (Except.ok (ε := String) e).isOk = true from rfl] at hok
        cases hok
      · show ∃ msg, collect total (.ok e :: rest) acc = .error msg
        unfold collect
        cases hp : progressModel (acc ++ [e]).length total with
        | error msg => exact ⟨msg, rfl⟩
        | ok _ => exact ih (acc ++ [e]) ⟨r', hmem, hok⟩

/-- When every queue item is a success and the page count is positive, the
collection loop appends all entries in queue order. -/
theorem collect_ok_of_all_ok (total : Nat) (htotal : total ≠ 0)
    (l : List Entry) (acc : List Entry) :
    collect total (l.map Except.ok) acc = .ok (acc ++ l) := by
  induction l generalizing acc with
  | nil => simp [collect]
  | cons e rest ih =>
    show collect total (.ok e :: rest.map Except.ok) acc = _
    unfold collect
    simp only [progressModel, if_neg htotal]
    rw [ih (acc ++ [e])]
    simp

/-- `'.'` never occurs in the suffix after the last `'.'`. -/
theorem dot_not_mem_afterLastDot (l : List Char) : '.' ∉ afterLastDot l := by
  suffices h : ∀ acc : List Char, '.' ∉ acc →
      '.' ∉ l.foldl (fun acc c => if c = '.' then [] else acc ++ [c]) acc from
    h [] (by simp)
  induction l with
  | nil => intro acc ha; simpa using ha
  | cons c cs ih =>
    intro acc ha
    simp only [List.foldl_cons]
    by_cases hc : c = '.'
    · rw [if_pos hc]
      exact ih [] (by simp)
    · rw [if_neg hc]
      refine ih (acc ++ [c]) ?_
      simp [ha, Ne.symm hc]

/-- Splitting at the last occurrence of a separator is unambiguous: if two
decompositions around a `'.'` agree and neither tail contains `'.'`, the
heads and tails agree. -/
theorem append_last_dot_inj {l₁ m₁ l₂ m₂ : List Char}
    (h₁ : '.' ∉ m₁) (h₂ : '.' ∉ m₂)
    (h : l₁ ++ '.' :: m₁ = l₂ ++ '.' :: m₂) : l₁ = l₂ ∧ m₁ = m₂ := by
  induction l₁ generalizing l₂ with
  | nil =>
    cases l₂ with
    | nil => simpa using h
    | cons d l₂' =>
      simp only [List.nil_append, List.cons_append, List.cons.injEq] at h
      obtain ⟨hd, ht⟩ := h
      exact absurd (ht ▸ List.mem_append_right l₂' (hd ▸ List.mem_cons_self '.' m₂)) h₁
  | cons c l₁' ih =>
    cases l₂ with
    | nil =>
      simp only [List.nil_append, List.cons_append, List.cons.injEq] at h
      obtain ⟨hd, ht⟩ := h
      exact absurd (ht.symm ▸ List.mem_append_right l₁' (hd ▸ List.mem_cons_self '.' m₁)) h₂
    | cons d l₂' =>
      simp only [List.cons_append, List.cons.injEq] at h
      obtain ⟨hd, ht⟩ := h
      obtain ⟨he, hm⟩ := ih ht
      exact ⟨by rw [hd, he], hm⟩

/-- Two archive member names built by `_get_image` can only coincide when
the underlying page names coincide: the extension appended after the final
`'.'` is itself dot-free, so the page name is recoverable from the member
name. -/
theorem entryName_inj {p q : Page} {u v : String}
    (h : entryName p u = entryName q v) : p.name = q.name := by
  have hd : p.name.data ++ '.' :: (extOf u).data = q.name.data ++ '.' :: (extOf v).data := by
    have := congrArg String.data h
    simpa [entryName, String.data_append, List.append_assoc] using this
  have hu : '.' ∉ (extOf u).data := dot_not_mem_afterLastDot u.data
  have hv : '.' ∉ (extOf v).data := dot_not_mem_afterLastDot v.data
  exact String.ext (append_last_dot_inj hu hv hd).1

/-! ### Claim theorems -/

/-- C10: `GetManga.latest` returns the last element of the chapters list,
and is only defined on a non-empty list: on an empty list Python
`chapters[-1]` raises `IndexError`. -/
theorem latest_last_or_indexError (cs : List Chapter) :
    (∀ h : cs ≠ [], latest cs = .ok (cs.getLast h)) ∧
    (cs = [] → latest cs = .error "IndexError") := by
  constructor
  · intro h
    rw [latest, List.getLast?_eq_getLast cs h]
  · rintro rfl
    rfl

/-- Witness for C10 at a one-element list and the empty list. -/
theorem latest_last_or_indexError_witness :
    latest [⟨"2", "t_c002", "u"⟩] = .ok ⟨"2", "t_c002", "u"⟩ ∧
    latest [] = .error "IndexError" :=
  ⟨(latest_last_or_indexError [⟨"2", "t_c002", "u"⟩]).1 (by simp),
   (latest_last_or_indexError []).2 rfl⟩

/-- C5: when a file already exists at the final archive path, `GetManga.get`
returns at line 69 before creating the temporary file or spawning any
fetch: the outcome is the skip message (not an exception) and the
filesystem is returned exactly as it was, whatever the pages, fetch
environment and completion order — so no fetch result can influence the
call and the existing file is unchanged. -/
theorem get_skips_when_final_exists (fs0 : FS) (pages : List Page)
    (env : FetchEnv) (order : List Nat) (h : fs0.final.isSome) :
    getModel fs0 pages env order = (.skipped, fs0) := by
  rw [getModel, if_pos h]

/-- Witness for C5: a concrete existing archive is left untouched. -/
theorem get_skips_when_final_exists_witness :
    getModel ⟨false, some [("1.png", [9])]⟩ [⟨"1", "p1"⟩] ⟨fun _ => .error "net", fun _ => []⟩ [0]
      = (.skipped, ⟨false, some [("1.png", [9])]⟩) :=
  get_skips_when_final_exists ⟨false, some [("1.png", [9])]⟩ [⟨"1", "p1"⟩]
    ⟨fun _ => .error "net", fun _ => []⟩ [0] rfl

/-- C6 counterexample: `uriopen` is `requests.get(url).content`, which never
inspects the status code, so a completed non-2xx response still yields the
raw body bytes instead of a failure: with a transport returning status 404
and body `[7, 7]`, `uriopen` returns `[7, 7]`. -/
theorem uriopen_bytes_on_404 :
    uriopenModel (fun _ => .ok ⟨404, [7, 7]⟩) "http://host/a.png" = .ok [7, 7] ∧
    ¬(200 ≤ 404 ∧ 404 < 300) :=
  ⟨rfl, by decide⟩

/-- C6 amended: `uriopen` performs one GET and returns the response body
bytes for every completed HTTP response, regardless of its status code;
only a transport-level error (the HTTP library raising) surfaces as a
failure, and it is passed through unwrapped. -/
theorem uriopen_body_any_status (get : String → Except String HttpResponse)
    (url : String) :
    (∀ r, get url = .ok r → uriopenModel get url = .ok r.content) ∧
    (∀ e, get url = .error e → uriopenModel get url = .error e) := by
  refine ⟨fun r hr => ?_, fun e he => ?_⟩
  · rw [uriopenModel, hr]
  · rw [uriopenModel, he]

/-- Witness for the amended C6 on a completed response and on a transport
error. -/
theorem uriopen_body_any_status_witness :
    uriopenModel (fun _ => .ok ⟨200, [1, 2]⟩) "u" = .ok [1, 2] ∧
    uriopenModel (fun _ => .error "ConnectionError") "u" = .error "ConnectionError" :=
  ⟨(uriopen_body_any_status (fun _ => .ok ⟨200, [1, 2]⟩) "u").1 ⟨200, [1, 2]⟩ rfl,
   (uriopen_body_any_status (fun _ => .error "ConnectionError") "u").2 "ConnectionError" rfl⟩

/-- C9: when `get_pages` returns an empty list, the un-guarded
`progress(0, 0)` call at line 81 divides by zero, `progress` re-raises it
as `MangaException('Unknown error')`, and since line 81 sits outside the
`try` of lines 92-104 the temporary archive file created at line 74 is
never removed: `get` raises and leaves `<final path>.tmp` on disk, with
nothing at the final path. -/
theorem get_empty_pages_raises_leaves_tmp (fs0 : FS) (env : FetchEnv)
    (order : List Nat) (h : fs0.final = none) :
    getModel fs0 [] env order = (.failure "Unknown error", ⟨true, none⟩) := by
  rw [getModel, if_neg (by simp [h])]
  rfl

/-- Witness for C9 at a concrete initial filesystem. -/
theorem get_empty_pages_raises_leaves_tmp_witness :
    getModel ⟨false, none⟩ [] ⟨fun u => .ok u, fun _ => [0]⟩ []
      = (.failure "Unknown error", ⟨true, none⟩) :=
  get_empty_pages_raises_leaves_tmp ⟨false, none⟩ ⟨fun u => .ok u, fun _ => [0]⟩ [] rfl

/-- C7 counterexample: an error raised while rendering progress is fatal.
The initial `progress(0, len(pages))` call (line 81) raises
`MangaException('Unknown error')` when the page count is zero, and this
exception propagates out of `GetManga.get`: the call fails (and, being
outside the `try`, even leaves the temporary file behind) instead of
proceeding best-effort. -/
theorem progress_error_fails_get :
    progressModel 0 (List.length ([] : List Page)) = .error "Unknown error" ∧
    getModel ⟨false, none⟩ [] ⟨fun u => .ok u, fun _ => []⟩ [0]
      = (.failure "Unknown error", ⟨true, none⟩) :=
  ⟨rfl, rfl⟩

/-- C7 amended: a failure inside the progress reporter is fatal, not
best-effort: whenever the initial `progress(0, N)` call raises, the raised
`MangaException` propagates and `GetManga.get` fails with exactly that
error (in this code the reporter fails precisely when `N = 0`; a reporter
error during collection would likewise abort the download through the
`except` branch of lines 101-104). -/
theorem progress_error_fatal (fs0 : FS) (pages : List Page) (env : FetchEnv)
    (order : List Nat) (msg : String) (hfs : fs0.final = none)
    (hprog : progressModel 0 pages.length = .error msg) :
    (getModel fs0 pages env order).1 = .failure msg := by
  rw [getModel, if_neg (by simp [hfs]), hprog]

/-- Witness for the amended C7 at the empty page list. -/
theorem progress_error_fatal_witness :
    (getModel ⟨true, none⟩ [] ⟨fun u => .ok u, fun _ => []⟩ []).1 = .failure "Unknown error" :=
  progress_error_fatal ⟨true, none⟩ [] ⟨fun u => .ok u, fun _ => []⟩ [] "Unknown error" rfl rfl

/-- C1 (code bug): the collection loop pairs `thread.join()` with
`queue.get()` on one shared FIFO queue (lines 93-95), so archive members
are written in the order worker threads complete, not in input page order.
With input pages `1`, `2` and the fetch of page `2` completing first, the
archive holds `2.png` before `1.png` — not the input order, contradicting
order preservation. -/
theorem get_writes_in_completion_order :
    getModel ⟨false, none⟩ [⟨"1", "x.png"⟩, ⟨"2", "y.png"⟩]
        ⟨fun u => .ok u, fun _ => [0]⟩ [1, 0]
      = (.success [("2.png", [0]), ("1.png", [0])],
         ⟨false, some [("2.png", [0]), ("1.png", [0])]⟩) ∧
    [("2.png", ([0] : Bytes)), ("1.png", [0])] ≠ [("1.png", [0]), ("2.png", [0])] :=
  ⟨by decide, by decide⟩

/-- C2: if the final file does not already exist, `N ≥ 2` pages are fetched
and exactly one fetch fails (its worker puts a `(None, msg)` item), then
`GetManga.get` raises `MangaException` and afterwards neither the final
archive file nor the temporary file exists: the `except` branch of lines
101-104 closes the archive, removes `<final>.tmp` and re-raises, and the
rename of line 107 is never reached. `order`, the completion order of the
workers, is an arbitrary permutation of the page indices. -/
theorem get_single_failure_cleanup (fs0 : FS) (pages : List Page)
    (env : FetchEnv) (order : List Nat)
    (hfs : fs0.final = none)
    (hN : 2 ≤ pages.length)
    (hperm : order.Perm (List.range pages.length))
    (hone : (List.range pages.length).countP
      (fun i => !(workerResult env (pages.getD i default)).isOk) = 1) :
    ∃ msg, getModel fs0 pages env order = (.failure msg, ⟨false, none⟩) := by
  have hcount : order.countP (fun i => !(workerResult env (pages.getD i default)).isOk) = 1 :=
    (hperm.countP_eq _).trans hone
  have hpos : 0 < order.countP (fun i => !(workerResult env (pages.getD i default)).isOk) := by
    omega
  obtain ⟨i, hi, hpi⟩ := List.countP_pos_iff.mp hpos
  have hfail : (workerResult env (pages.getD i default)).isOk = false := by
    simpa using hpi
  have hmem : workerResult env (pages.getD i default) ∈
      order.map (fun i => workerResult env (pages.getD i default)) :=
    List.mem_map_of_mem _ hi
  obtain ⟨msg, hcol⟩ := collect_error_of_exists pages.length
    (order.map (fun i => workerResult env (pages.getD i default))) [] ⟨_, hmem, hfail⟩
  refine ⟨msg, ?_⟩
  rw [getModel, if_neg (by simp [hfs])]
  have hn : pages.length ≠ 0 := by omega
  simp only [progressModel, if_neg hn, hcol]

/-- Witness for C2: two pages, the second fetch fails, completion order is
reversed. -/
theorem get_single_failure_cleanup_witness :
    ∃ msg, getModel ⟨false, none⟩ [⟨"1", "x"⟩, ⟨"2", "y"⟩]
        ⟨fun u => if u = "y" then .error "boom" else .ok "img.png", fun _ => [1]⟩ [1, 0]
      = (.failure msg, ⟨false, none⟩) :=
  get_single_failure_cleanup ⟨false, none⟩ [⟨"1", "x"⟩, ⟨"2", "y"⟩]
    ⟨fun u => if u = "y" then .error "boom" else .ok "img.png", fun _ => [1]⟩ [1, 0]
    rfl (by decide) (by decide) (by decide)

/-- A successful queue item carries a member name produced by line 114:
`page.name + '.' + uri.split('.')[-1]` for the resolved image uri. -/
theorem workerResult_ok_name {env : FetchEnv} {page : Page} {e : Entry}
    (h : workerResult env page = .ok e) : ∃ u, e.1 = entryName page u := by
  unfold workerResult at h
  cases henv : env.getImageUri page.uri with
  | error m => rw [henv] at h; cases h
  | ok u =>
    rw [henv] at h
    injection h with h'
    exact ⟨u, by rw [← h']⟩

/-- C8 counterexample: nothing in `GetManga.get` deduplicates member names;
with two input pages both named `"1"` (and both fetches succeeding) the
archive receives two members both named `"1.png"`. -/
theorem get_duplicate_member_names :
    (getModel ⟨false, none⟩ [⟨"1", "a.png"⟩, ⟨"1", "b.png"⟩]
        ⟨fun u => .ok u, fun _ => [0]⟩ [0, 1]).1
      = .success [("1.png", [0]), ("1.png", [0])] ∧
    ¬ ([("1.png", ([0] : Bytes)), ("1.png", [0])].map Prod.fst).Nodup :=
  ⟨by decide, by decide⟩

/-- C8 amended: when the (non-empty) input page list has pairwise distinct
page names and every fetch succeeds, the archive members' names are
pairwise distinct: each member name is `page.name ++ "." ++ ext` with a
dot-free extension, so distinct page names give distinct member names,
whatever the completion order. -/
theorem get_member_names_nodup (fs0 : FS) (pages : List Page)
    (env : FetchEnv) (order : List Nat)
    (hfs : fs0.final = none)
    (hne : pages ≠ [])
    (hperm : order.Perm (List.range pages.length))
    (hok : ∀ i, i < pages.length → (workerResult env (pages.getD i default)).isOk = true)
    (hnodup : (pages.map Page.name).Nodup) :
    ∃ entries, getModel fs0 pages env order = (.success entries, ⟨false, some entries⟩) ∧
      (entries.map Prod.fst).Nodup := by
  have hn : pages.length ≠ 0 := fun h => hne (List.eq_nil_of_length_eq_zero h)
  set f := fun i => workerResult env (pages.getD i default) with hfdef
  set g := fun i => ((f i).toOption).getD ("", []) with hgdef
  have hmemlt : ∀ i ∈ order, i < pages.length := fun i hi =>
    List.mem_range.mp (hperm.mem_iff.mp hi)
  have hfg : ∀ i ∈ order, f i = Except.ok (g i) := by
    intro i hi
    have hisok : (f i).isOk = true := hok i (hmemlt i hi)
    cases hfi : f i with
    | error m =>
      rw [hfi] at hisok
      rw [show (Except.error (α := Entry) m).isOk = false from rfl] at hisok
      cases hisok
    | ok e => simp [hgdef, hfi, Except.toOption]
  have hmapeq : order.map f = (order.map g).map Except.ok := by
    rw [List.map_map]
    exact List.map_congr_left hfg
  have hcol : collect pages.length (order.map f) [] = .ok ([] ++ order.map g) := by
    rw [hmapeq]
    exact collect_ok_of_all_ok _ hn _ _
  refine ⟨order.map g, ?_, ?_⟩
  · rw [getModel, if_neg (by simp [hfs])]
    simp only [progressModel, if_neg hn, ← hfdef, hcol, List.nil_append]
  · rw [List.map_map]
    refine List.Nodup.map_on ?_ (hperm.symm.nodup (List.nodup_range _))
    intro i hi j hj heq
    obtain ⟨u, hu⟩ := workerResult_ok_name (hfg i hi)
    obtain ⟨v, hv⟩ := workerResult_ok_name (hfg j hj)
    have hname : (pages.getD i default).name = (pages.getD j default).name := by
      refine entryName_inj (u := u) (v := v) ?_
      rw [← hu, ← hv]
      exact heq
    have hi' := hmemlt i hi
    have hj' := hmemlt j hj
    have hi'' : i < (pages.map Page.name).length := by simpa using hi'
    have hj'' : j < (pages.map Page.name).length := by simpa using hj'
    have hgete : (pages.map Page.name)[i] = (pages.map Page.name)[j] := by
      rw [List.getElem_map, List.getElem_map]
      rw [List.getD_eq_getElem pages default hi', List.getD_eq_getElem pages default hj'] at hname
      exact hname
    exact (List.Nodup.getElem_inj_iff hnodup).mp hgete

/-- Witness for the amended C8: two distinct page names, all fetches
succeed, reversed completion order. -/
theorem get_member_names_nodup_witness :
    ∃ entries, getModel ⟨false, none⟩ [⟨"1", "x"⟩, ⟨"2", "y"⟩]
        ⟨fun _ => .ok "i.png", fun _ => [3]⟩ [1, 0]
      = (.success entries, ⟨false, some entries⟩) ∧ (entries.map Prod.fst).Nodup :=
  get_member_names_nodup ⟨false, none⟩ [⟨"1", "x"⟩, ⟨"2", "y"⟩]
    ⟨fun _ => .ok "i.png", fun _ => [3]⟩ [1, 0]
    rfl (by decide) (by decide) (by decide) (by decide)

/-- Each step of the thread system preserves the sum of the semaphore
counter and the number of workers inside the fetch section: acquiring
trades one semaphore unit for one fetching worker, finishing trades back,
and the main thread's steps touch neither. -/
theorem step_sem_add_fetching {results : List (Except String Entry)}
    {s t : TState} (h : Step results s t) :
    t.sem + countFetching t = s.sem + countFetching s := by
  cases h with
  | acquire i hw hs =>
    have hlt : i < s.phases.length := by
      by_contra hge
      rw [List.getD_eq_default _ _ (le_of_not_lt hge)] at hw
      cases hw
    have hget : s.phases[i] = .waiting := by
      rw [← List.getD_eq_getElem s.phases .done hlt]
      exact hw
    unfold countFetching
    simp only
    rw [List.countP_set _ _ _ _ hlt, hget]
    have h1 : (decide (WPhase.waiting = WPhase.fetching)) = false := rfl
    have h2 : (decide (WPhase.fetching = WPhase.fetching)) = true := rfl
    simp only [h1, h2, Bool.false_eq_true, eq_self_iff_true, decide_True, if_false, if_true]
    omega
  | finish i hf =>
    have hlt : i < s.phases.length := by
      by_contra hge
      rw [List.getD_eq_default _ _ (le_of_not_lt hge)] at hf
      cases hf
    have hget : s.phases[i] = .fetching := by
      rw [← List.getD_eq_getElem s.phases .done hlt]
      exact hf
    have hpos : 0 < s.phases.countP (· = WPhase.fetching) :=
      List.countP_pos_iff.mpr ⟨_, s.phases.getElem_mem hlt, by simp [hget]⟩
    unfold countFetching
    simp only
    rw [List.countP_set _ _ _ _ hlt, hget]
    have h2 : (decide (WPhase.fetching = WPhase.fetching)) = true := rfl
    have h3 : (decide (WPhase.done = WPhase.fetching)) = false := rfl
    simp only [h2, h3, Bool.false_eq_true, eq_self_iff_true, decide_True, if_false, if_true]
    omega
  | collectOk e hfail hjoin hlen hitem => rfl
  | collectErr msg hfail hjoin hlen hitem => rfl
  | commit hfail hren hall => rfl

/-- In every state reachable from the post-spawn state, the semaphore
counter plus the number of fetching workers equals the concurrency limit. -/
theorem reaches_sem_add_fetching {results : List (Except String Entry)}
    {n co : Nat} {s : TState}
    (h : Reaches results (initTState n co) s) :
    s.sem + countFetching s = co := by
  induction h with
  | refl =>
    unfold initTState countFetching
    simp only
    rw [List.countP_eq_zero.mpr]
    · rfl
    · intro a ha
      rw [List.eq_of_mem_replicate ha]
      simp
  | tail hsteps hstep ih => rw [step_sem_add_fetching hstep, ih]

/-- C4: with `n` worker threads (one per page, lines 86-90) and the
semaphore initialised to the concurrency limit `co` (line 84,
`self.concurrency = 4` by default), every reachable state of the thread
system has at most `co` workers inside the semaphore-guarded fetch section
of `_get_image` (lines 112-121): the limit is a hard cap on
simultaneously in-flight page fetches. -/
theorem fetches_bounded_by_concurrency (results : List (Except String Entry))
    (n co : Nat) (s : TState)
    (h : Reaches results (initTState n co) s) :
    countFetching s ≤ co := by
  have := reaches_sem_add_fetching h
  omega

/-- Witness for C4 at the default limit 4 with 5 workers, at the
post-spawn state. -/
theorem fetches_bounded_by_concurrency_witness :
    countFetching (initTState 5 4) ≤ 4 :=
  fetches_bounded_by_concurrency (List.replicate 5 (.ok ("", []))) 5 4
    (initTState 5 4) Relation.ReflTransGen.refl

/-- C3 amended: once the main thread has observed a failing fetch and
raised (lines 99-104), the chapter operation has failed for good: along
any continuation of the thread system no further archive entry is written
(all remaining fetch results are discarded — the queue is never read
again) and the archive is never committed. Worker threads, however, may
keep stepping. -/
theorem after_failure_results_discarded (results : List (Except String Entry))
    (s t : TState) (h : Reaches results s t) (hf : s.failed = true) :
    t.failed = true ∧ t.entries = s.entries ∧ t.renamed = s.renamed := by
  induction h with
  | refl => exact ⟨hf, rfl, rfl⟩
  | tail hsteps hstep ih =>
    obtain ⟨hf', hent, hren⟩ := ih
    cases hstep with
    | acquire i hw hs => exact ⟨hf', hent, hren⟩
    | finish i hfin => exact ⟨hf', hent, hren⟩
    | collectOk e hfail hjoin hlen hitem => exact absurd hf' (by rw [hfail]; decide)
    | collectErr msg hfail hjoin hlen hitem => exact absurd hf' (by rw [hfail]; decide)
    | commit hfail hren2 hall => exact absurd hf' (by rw [hfail]; decide)

/-- Per-worker queue items for the C3 trace: worker 0 fails, worker 1
would succeed. -/
def resC3 : List (Except String Entry) := [.error "boom", .ok ("2.png", [0])]

/-- A reachable state in which the main thread has already raised on the
failing item of worker 0, while worker 1 is still waiting on the
semaphore. -/
def sFailC3 : TState :=
  ⟨[.done, .waiting], 1, [.error "boom"], 0, [], true, false⟩

/-- The state after worker 1 acquires the semaphore and begins its fetch —
after the failure was observed. -/
def sAfterC3 : TState :=
  ⟨[.done, .fetching], 0, [.error "boom"], 0, [], true, false⟩

/-- C3 counterexample: fetches are still started after the first failure
is observed. All worker threads are spawned up-front (lines 86-90) and
nothing ever signals them to stop: with 2 pages and concurrency 1, after
worker 0's failure has been observed and the operation has raised
(`failed = true`), worker 1 — still waiting on the semaphore — takes an
`acquire` step and enters the fetch section, i.e. a further page fetch is
started. This refutes the claim's "no further page fetches are started". -/
theorem fetch_starts_after_failure :
    Reaches resC3 (initTState 2 1) sFailC3 ∧
    sFailC3.failed = true ∧
    Step resC3 sFailC3 sAfterC3 ∧
    sFailC3.phases.getD 1 .done = .waiting ∧
    sAfterC3.phases.getD 1 .done = .fetching := by
  refine ⟨?_, rfl, ?_, rfl, rfl⟩
  · have h1 : Step resC3 (initTState 2 1)
        ⟨[.fetching, .waiting], 0, [], 0, [], false, false⟩ :=
      Step.acquire _ 0 rfl (by decide)
    have h2 : Step resC3 ⟨[.fetching, .waiting], 0, [], 0, [], false, false⟩
        ⟨[.done, .waiting], 1, [.error "boom"], 0, [], false, false⟩ :=
      Step.finish _ 0 rfl
    have h3 : Step resC3 ⟨[.done, .waiting], 1, [.error "boom"], 0, [], false, false⟩
        sFailC3 :=
      Step.collectErr _ "boom" rfl rfl (by decide) rfl
    exact Relation.ReflTransGen.tail
      (Relation.ReflTransGen.tail (Relation.ReflTransGen.single h1) h2) h3
  · exact Step.acquire _ 1 rfl (by decide)

/-- Witness for the amended C3: one concrete post-failure step (worker 1
acquiring) leaves `failed` set, the written entries unchanged and the
archive uncommitted. -/
theorem after_failure_results_discarded_witness :
    sAfterC3.failed = true ∧ sAfterC3.entries = sFailC3.entries ∧
      sAfterC3.renamed = sFailC3.renamed :=
  after_failure_results_discarded resC3 sFailC3 sAfterC3
    (Relation.ReflTransGen.single (Step.acquire _ 1 rfl (by decide))) rfl
